import Mathlib

/-!
# A shallow embedding of the `stylish.js` engine (canonical ES-module draft)

The definitions below translate, construct by construct, the expression
extractor, the style-tree walker, the style-provider processor, the
trigger/handler registries and the two built-in triggers (`on`, `data`)
of `stylish.js`.  Strings are modelled as `List Char`, DOM nodes as
natural-number identities (JavaScript reference equality becomes equality
of identifiers), the host JSON decoder as an explicit parameter, and the
exception flow of a `process()` pass as an explicit error field that,
once set, makes the remaining steps of the pass no-ops.
-/

namespace Stylish

/-- DOM nodes are identified by reference; we model references as `Nat`. -/
abbrev Node := Nat

/-! ## Expression Extractor -/

/-- Constant `Stylish.ATTRIBUTE_NAME = 'stylish'`. -/
def ATTRIBUTE_NAME : String := "stylish"

/-- The characters `stylish(`: the fixed part of `REGEXP_EXPRESSION`
before the capture group. -/
def exprHead : List Char := ATTRIBUTE_NAME.toList ++ ['(']

/-- A character matched by the regex class `['"]`. -/
def isQuoteChar (c : Char) : Bool := c = '\'' || c = '"'

/-- A JavaScript line terminator: the characters `.` does not match. -/
def isLineTerm (c : Char) : Bool :=
  c = '\n' || c = '\r' || c.toNat = 0x2028 || c.toNat = 0x2029

/-- Matching of `(.*)\)['"]?$` against the text following `stylish(`:
the greedy `.*` captures everything up to a final `)` (or `)` followed
by one quote), and matches no line terminator. -/
def matchTail (cs : List Char) : Option (List Char) :=
  match cs.reverse with
  | [] => none
  | c :: rest =>
    if c = ')' then
      let inner := rest.reverse
      if inner.all (fun ch => !isLineTerm ch) then some inner else none
    else if isQuoteChar c then
      match rest with
      | c2 :: rest2 =>
        if c2 = ')' then
          let inner := rest2.reverse
          if inner.all (fun ch => !isLineTerm ch) then some inner else none
        else none
      | [] => none
    else none

/-- Matching of `Stylish.REGEXP_EXPRESSION`, i.e.
`^['"]?stylish\((.*)\)['"]?$`, returning the capture group when the
whole content matches.  The optional leading quote is tried first and,
as in the backtracking regex engine, dropping it cannot help once the
first character is a quote (the literal `s` cannot match a quote). -/
def matchExpr (cs : List Char) : Option (List Char) :=
  match cs with
  | [] => none
  | c :: rest =>
    if isQuoteChar c then
      if exprHead.isPrefixOf rest then matchTail (rest.drop exprHead.length) else none
    else
      if exprHead.isPrefixOf cs then matchTail (cs.drop exprHead.length) else none

/-- Replacement `content.replace(Stylish.REGEXP_EXPRESSION, '$1')`: when the anchored
expression matches (necessarily the whole string), the result is the
capture group; otherwise the string is unchanged. -/
def replaceExpression (cs : List Char) : List Char :=
  match matchExpr cs with
  | some cap => cap
  | none => cs

/-- Replacement `content.replace(Stylish.REGEXP_ESCAPED_QUOTES, '"')` with
`REGEXP_ESCAPED_QUOTES = /\\['"]/g`: a left-to-right, non-overlapping
replacement of every backslash-quote pair by a double quote. -/
def unescapeQuotes : List Char → List Char
  | [] => []
  | '\\' :: c :: rest =>
    if isQuoteChar c then '"' :: unescapeQuotes rest
    else '\\' :: unescapeQuotes (c :: rest)
  | c :: rest => c :: unescapeQuotes rest

/-- A character removed by JavaScript `String.prototype.trim`
(ECMAScript WhiteSpace or LineTerminator). -/
def isJsWhitespace (c : Char) : Bool :=
  c = ' ' || c = '\t' || c = '\n' || c = '\r' ||
  c.toNat = 0x000B || c.toNat = 0x000C || c.toNat = 0x00A0 ||
  c.toNat = 0xFEFF || c.toNat = 0x1680 ||
  (0x2000 <= c.toNat && c.toNat <= 0x200A) ||
  c.toNat = 0x2028 || c.toNat = 0x2029 || c.toNat = 0x202F ||
  c.toNat = 0x205F || c.toNat = 0x3000

/-- JavaScript `String.prototype.trim`: strip leading and trailing whitespace. -/
def trimJs (cs : List Char) : List Char :=
  ((cs.dropWhile isJsWhitespace).reverse.dropWhile isJsWhitespace).reverse

/-- Method `Stylish.prototype._extractArgumentString`:
returns `''` unless the content is longer than the marker name and
matches `REGEXP_EXPRESSION`; otherwise replaces the match by its capture
group, unescapes quotes and trims. -/
def extractArgumentString (content : List Char) : List Char :=
  if ATTRIBUTE_NAME.length < content.length ∧ (matchExpr content).isSome then
    trimJs (unescapeQuotes (replaceExpression content))
  else []

/-! ## Host JSON values

`JSON.parse` is a host collaborator; its results are modelled by
`JsValue` and the decoder itself stays an explicit parameter of the
engine configuration. -/

/-- A value produced by the host JSON decoder. -/
inductive JsValue : Type where
  | null : JsValue
  | bool (b : Bool) : JsValue
  | num (n : Int) : JsValue
  | str (s : String) : JsValue
  | arr (xs : List JsValue) : JsValue
  | obj (fields : List (String × JsValue)) : JsValue

mutual

/-- Structural equality of host JSON values (the `===`-compatible
comparison the model needs only for computing with concrete values). -/
def jsEq : JsValue → JsValue → Bool
  | .null, .null => true
  | .bool a, .bool b => a == b
  | .num a, .num b => a == b
  | .str a, .str b => a == b
  | .arr xs, .arr ys => jsEqList xs ys
  | .obj xs, .obj ys => jsEqFields xs ys
  | _, _ => false

/-- Elementwise `jsEq` on value lists. -/
def jsEqList : List JsValue → List JsValue → Bool
  | [], [] => true
  | x :: xs, y :: ys => jsEq x y && jsEqList xs ys
  | _, _ => false

/-- Elementwise `jsEq` on field lists. -/
def jsEqFields : List (String × JsValue) → List (String × JsValue) → Bool
  | [], [] => true
  | (k1, v1) :: xs, (k2, v2) :: ys => k1 == k2 && jsEq v1 v2 && jsEqFields xs ys
  | _, _ => false

end

instance : BEq JsValue := ⟨jsEq⟩

/-- Test `typeof v === 'object'`: true for objects, arrays and `null`;
`undefined` (`none`) and the primitives are not objects. -/
def typeofIsObject : Option JsValue → Bool
  | some (.obj _) => true
  | some (.arr _) => true
  | some .null => true
  | _ => false

/-- JavaScript property read `v.k` for the property names the engine
uses: an own field of an object, `undefined` otherwise.  (Reading a
property of `null` throws instead; the callers below model that case
separately.) -/
def propOf : JsValue → String → Option JsValue
  | .obj fields, k => fields.lookup k
  | _, _ => none

/-- The own enumerable keys iterated by `for (let name in v)`, in
insertion order for objects and index order for arrays. -/
def ownKeys : JsValue → List (String × JsValue)
  | .obj fields => fields
  | .arr xs => (List.range xs.length).zip xs |>.map (fun p => (toString p.1, p.2))
  | _ => []

/-- JavaScript truthiness of an optional value (used for the boolean
coercion of `on.capture` by `addEventListener`). -/
def jsTruthy : Option JsValue → Bool
  | none => false
  | some .null => false
  | some (.bool b) => b
  | some (.num n) => n ≠ 0
  | some (.str s) => s ≠ ""
  | some (.arr _) => true
  | some (.obj _) => true

/-! ## Handler registry and dispatcher

Handlers are `(trigger, fn)` pairs compared by JavaScript reference
equality; references are modelled by a `DecidableEq` identity type. -/

/-- Method `Stylish.prototype._processHandler`: iterate the handler list and
invoke `handler.fn(nodes, payload)` for every registration whose
trigger is the firing trigger.  The result records, in invocation
order, each invoked callback with the arguments it receives. -/
def processHandler {α β π : Type} [DecidableEq α]
    (handlers : List (α × β)) (nodes : List Node) (payload : π) (trigger : α) :
    List (β × List Node × π) :=
  match handlers with
  | [] => []
  | h :: rest =>
    if trigger = h.1 then (h.2, nodes, payload) :: processHandler rest nodes payload trigger
    else processHandler rest nodes payload trigger

/-- Loop body of `Stylish.prototype.removeHandler`: scan the handler list
left to right, splicing out each registration matching both the
trigger and the callback.  The splice shifts the array while the index
still advances, so the element directly after a removed one is never
examined. -/
def removeHandlerList {α β : Type} [DecidableEq α] [DecidableEq β]
    (t : α) (f : β) : List (α × β) → List (α × β)
  | [] => []
  | h :: rest =>
    if h.1 = t ∧ h.2 = f then
      match rest with
      | [] => []
      | h2 :: rest2 => h2 :: removeHandlerList t f rest2
    else h :: removeHandlerList t f rest

/-- The mutable state owned by one `Stylish` facade instance: the
ordered trigger list and the ordered handler list, both holding
references (`Nat` identities). -/
structure StylishState : Type where
  triggers : List Nat
  handlers : List (Nat × Nat)
deriving DecidableEq, Repr

/-- Method `Stylish.prototype.addHandler`: append the registration and return
the instance. -/
def addHandler (s : StylishState) (t f : Nat) : StylishState :=
  { s with handlers := s.handlers ++ [(t, f)] }

/-- Method `Stylish.prototype.removeHandler` on the facade state. -/
def removeHandler (s : StylishState) (t f : Nat) : StylishState :=
  { s with handlers := removeHandlerList t f s.handlers }

/-- Method `Stylish.prototype.addTrigger`: append the trigger and return the
instance. -/
def addTrigger (s : StylishState) (t : Nat) : StylishState :=
  { s with triggers := s.triggers ++ [t] }

/-- Method `Stylish.prototype.removeTrigger` (canonical draft): when the
trigger is present, splice out its first occurrence and replace the
handler list by `this._handlers.filter(handler => handler.trigger ===
trigger)` — the registrations kept are exactly those whose trigger is
the one being removed. -/
def removeTrigger (s : StylishState) (t : Nat) : StylishState :=
  if s.triggers.contains t then
    { triggers := s.triggers.erase t
      handlers := s.handlers.filter (fun h => h.1 = t) }
  else s

/-! ## Built-in triggers

`Stylish.triggers.on` and `Stylish.triggers.data` (canonical draft).
The engine's trigger list holds these two reference implementations;
handler registrations are keyed by the trigger reference. -/

/-- A reference to one of the built-in trigger functions. -/
inductive BuiltinTrigger : Type where
  | on : BuiltinTrigger
  | data : BuiltinTrigger
deriving DecidableEq, Repr

/-- The payload a trigger hands to the Handler Dispatcher: `{ event }`
from the `on` trigger's listener (an event has a target node and a
type), or `{ data }` from the `data` trigger. -/
inductive Payload : Type where
  | event (target : Node) (eventKey : JsValue) : Payload
  | data (d : JsValue) : Payload

/-- One observable step of a pass: the Style Provider Processor handing
a provider's triple to the Trigger Dispatcher, a handler callback
invocation, or a dataset write. -/
inductive Effect : Type where
  | dispatch (nodes : List Node) (args : JsValue) (sel : String) : Effect
  | handlerCall (fn : Nat) (nodes : List Node) (payload : Payload) : Effect
  | datasetWrite (n : Node) (key : String) (v : JsValue) : Effect

/-- The `EVENT_HANDLER` closure created by one `triggerOn` invocation:
its identity (fresh per invocation), the resolved mode and the captured
affected node set. -/
structure Closure : Type where
  cid : Nat
  mode : String
  captured : List Node

/-- One installed DOM listener: the node, the event type, the callback
closure and the capture flag. -/
structure ListenerEntry : Type where
  node : Node
  eventKey : JsValue
  closure : Closure
  capture : Bool

/-- Structural (reference-faithful) equality of listener entries:
closure identities are fresh per `triggerOn` call, so structural
equality of entries coincides with the DOM's
(type, callback, capture) listener identity per node. -/
def entryEq (a b : ListenerEntry) : Bool :=
  a.node == b.node && jsEq a.eventKey b.eventKey &&
  a.closure.cid == b.closure.cid && a.closure.mode == b.closure.mode &&
  a.closure.captured == b.closure.captured && a.capture == b.capture

/-- Host `node.addEventListener(event, handler, capture)`: appending is a
no-op when the same (node, event, callback, capture) listener is
already installed. -/
def addEventListener (ls : List ListenerEntry) (e : ListenerEntry) : List ListenerEntry :=
  if ls.any (fun x => entryEq x e) then ls else ls ++ [e]

/-- The `MODES` constant of `Stylish.triggers.on`. -/
def MODES : List String := ["local", "global"]

/-- Resolution `(MODES.indexOf(on.mode) > -1) ? on.mode : 'local'`. -/
def resolveMode (m : Option JsValue) : String :=
  match m with
  | some (.str s) => if MODES.contains s then s else "local"
  | _ => "local"

/-- Trigger `Stylish.triggers.on` (canonical draft): with a non-empty node set,
an object-typed `on` argument and an `events` array, create one fresh
`EVENT_HANDLER` closure and install it on every node for every event.
Destructuring `{ on }` from a `null` argument, or reading `.events`
from a `null` value, throws (`.error`).  The result lists the
`addEventListener` calls in execution order. -/
def triggerOnInstalls (nodes : List Node) (args : JsValue) (cid : Nat) :
    Except Unit (List ListenerEntry) :=
  match args with
  | .null => .error ()
  | _ =>
    let onv := propOf args "on"
    if 0 < nodes.length ∧ typeofIsObject onv then
      match onv with
      | some .null => .error ()
      | some o =>
        match propOf o "events" with
        | some (.arr events) =>
          let cl : Closure := ⟨cid, resolveMode (propOf o "mode"), nodes⟩
          let cap := jsTruthy (propOf o "capture")
          .ok (events.flatMap (fun ev => nodes.map (fun n => ⟨n, ev, cl, cap⟩)))
        | _ => .ok []
      | none => .ok []
    else .ok []

/-- The body of `EVENT_HANDLER`: when the listener fires,
`this._processHandler((MODE === 'local') ? [event.target] : nodes,
{ event }, triggerOn)`. -/
def closureFire (handlers : List (BuiltinTrigger × Nat)) (cl : Closure)
    (target : Node) (ev : JsValue) : List Effect :=
  (processHandler handlers (if cl.mode = "local" then [target] else cl.captured)
      (Payload.event target ev) BuiltinTrigger.on).map
    (fun c => Effect.handlerCall c.1 c.2.1 c.2.2)

/-- Host event delivery: dispatching an event at a node runs, in
installation order, every listener installed on that node for that
event type. -/
def fireEvent (handlers : List (BuiltinTrigger × Nat)) (ls : List ListenerEntry)
    (n : Node) (ev : JsValue) : List Effect :=
  (ls.filter (fun e => e.node == n && jsEq e.eventKey ev)).flatMap
    (fun e => closureFire handlers e.closure n ev)

/-- Trigger `Stylish.triggers.data` (canonical draft): with a non-empty node
set and an object-typed `data` argument, for every own key write the
value onto every node's dataset and call `_processHandler(nodes,
{ data }, triggerData)`.  Destructuring `{ data }` from a `null`
argument throws; `for..in` over `null` iterates zero times. -/
def triggerDataRun (handlers : List (BuiltinTrigger × Nat)) (nodes : List Node)
    (args : JsValue) : Except Unit (List Effect) :=
  match args with
  | .null => .error ()
  | _ =>
    let dv := propOf args "data"
    if 0 < nodes.length ∧ typeofIsObject dv then
      match dv with
      | some d =>
        .ok ((ownKeys d).flatMap (fun kv =>
          nodes.map (fun n => Effect.datasetWrite n kv.1 kv.2) ++
          (processHandler handlers nodes (Payload.data d) BuiltinTrigger.data).map
            (fun c => Effect.handlerCall c.1 c.2.1 c.2.2)))
      | none => .ok []
    else .ok []

/-! ## The `process()` pass

A pass is modelled as explicit state passing: the installed listeners,
a fresh-closure counter, the ordered log of observable effects and an
error slot.  A thrown exception (`error := some _`) propagates: every
later step of the pass is a no-op. -/

/-- The error thrown by `_processStyleProvider` on a JSON decode
failure or by `_processTrigger` on a trigger failure, identified by the
offending provider's selector text or tag name. -/
structure PErr : Type where
  selector : String
deriving DecidableEq, Repr

/-- The state threaded through a `process()` pass (plus the listener
store, which persists across passes in the host DOM). -/
structure St : Type where
  listeners : List ListenerEntry
  fresh : Nat
  log : List Effect
  error : Option PErr

/-- The empty initial state: no listeners installed, nothing logged. -/
def initSt : St := ⟨[], 0, [], none⟩

/-- The engine's configuration for one pass: the host collaborators
(`document.querySelectorAll` by selector, the JSON decoder) and the
facade's registered trigger and handler lists. -/
structure EngineCfg : Type where
  query : String → List Node
  decode : List Char → Option JsValue
  triggers : List BuiltinTrigger
  handlers : List (BuiltinTrigger × Nat)

/-- Install a batch of listeners in order. -/
def applyInstalls (ls : List ListenerEntry) : List ListenerEntry → List ListenerEntry
  | [] => ls
  | e :: rest => applyInstalls (addEventListener ls e) rest

/-- One trigger invocation inside `_processTrigger`: run the built-in
trigger; a throwing trigger is caught, wrapped with the provider's
selector and re-thrown, aborting the pass. -/
def runTriggerSt (cfg : EngineCfg) (t : BuiltinTrigger) (nodes : List Node)
    (args : JsValue) (sel : String) (st : St) : St :=
  if st.error.isSome then st
  else
    match t with
    | .on =>
      match triggerOnInstalls nodes args st.fresh with
      | .error _ => { st with error := some ⟨sel⟩ }
      | .ok installs =>
        { st with listeners := applyInstalls st.listeners installs, fresh := st.fresh + 1 }
    | .data =>
      match triggerDataRun cfg.handlers nodes args with
      | .error _ => { st with error := some ⟨sel⟩ }
      | .ok effs => { st with log := st.log ++ effs }

/-- Method `Stylish.prototype._processTrigger`: invoke every registered
trigger in order with the resolved nodes, parsed arguments and
provider. -/
def processTriggerSt (cfg : EngineCfg) (nodes : List Node) (args : JsValue)
    (sel : String) (st : St) : St :=
  cfg.triggers.foldl (fun s t => runTriggerSt cfg t nodes args sel s) st

/-- Method `Stylish.prototype._processStyleProvider`: extract the argument
string (empty → silent no-op), decode it (failure → throw, aborting
the pass), resolve the affected node set (rule → query the document by
the rule's selector; element → the element itself) and hand the triple
to the Trigger Dispatcher.  The `.dispatch` log entry records that
hand-off. -/
def processProviderSt (cfg : EngineCfg) (isRule : Bool) (sel : String)
    (own : Node) (content : List Char) (st : St) : St :=
  if st.error.isSome then st
  else
    let arg := extractArgumentString content
    if 0 < arg.length then
      match cfg.decode arg with
      | none => { st with error := some ⟨sel⟩ }
      | some args =>
        let nodes := if isRule then cfg.query sel else [own]
        processTriggerSt cfg nodes args sel
          { st with log := st.log ++ [.dispatch nodes args sel] }
    else st

/-- A CSSOM style object: its `style.content` value, its
`selectorText` and its nested `cssRules`. -/
inductive StyleObject : Type where
  | mk (content : List Char) (selectorText : String) (cssRules : List StyleObject)

/-- The `style.content` of a style object. -/
def StyleObject.content : StyleObject → List Char
  | .mk c _ _ => c

/-- The `selectorText` of a style object. -/
def StyleObject.selectorText : StyleObject → String
  | .mk _ s _ => s

/-- The `cssRules` of a style object. -/
def StyleObject.cssRules : StyleObject → List StyleObject
  | .mk _ _ rs => rs

mutual

/-- Method `Stylish.prototype._processStyleObject`: for every nested rule,
recurse into it and then run the Style Provider Processor on it. -/
def processStyleObjectSt (cfg : EngineCfg) : StyleObject → St → St
  | .mk _ _ rules, st => processRulesSt cfg rules st

/-- The `for` loop of `_processStyleObject` over a rule list. -/
def processRulesSt (cfg : EngineCfg) : List StyleObject → St → St
  | [], st => st
  | r :: rest, st =>
    processRulesSt cfg rest
      (processProviderSt cfg true r.selectorText 0 r.content
        (processStyleObjectSt cfg r st))

end

/-- A marker-bearing document node found by
`document.querySelectorAll('*[stylish]')`: a `link`/`style` element
carrying a stylesheet, or any other element with its inline style
content. -/
inductive DocNode : Type where
  | styleEl (sheet : StyleObject) : DocNode
  | el (id : Node) (localName : String) (content : List Char) : DocNode

/-- The body of `process()`'s `forEach`: `link`/`style` nodes hand
their sheet to the Style Tree Walker, every other node is processed as
a style provider directly. -/
def processNodeSt (cfg : EngineCfg) (d : DocNode) (st : St) : St :=
  match d with
  | .styleEl sheet => processStyleObjectSt cfg sheet st
  | .el id ln content => processProviderSt cfg false ln id content st

/-- A `process()` pass over the document's marker-bearing nodes,
starting from an arbitrary pre-existing state (the listener store
persists across passes). -/
def processSt (cfg : EngineCfg) (doc : List DocNode) (st : St) : St :=
  doc.foldl (fun s d => processNodeSt cfg d s) st

/-- Method `Stylish.prototype.process` from a fresh state. -/
def process (cfg : EngineCfg) (doc : List DocNode) : St :=
  processSt cfg doc initSt

/-! ## The walker's hand-off sequence

For the Style Tree Walker claims, the sequence of style objects passed
to the Style Provider Processor during one walk. -/

mutual

/-- The style objects `_processStyleObject` hands to
`_processStyleProvider`, in call order. -/
def processStyleObjectCalls : StyleObject → List StyleObject
  | .mk _ _ rules => processRulesCalls rules

/-- The hand-off sequence of the walker's loop over a rule list. -/
def processRulesCalls : List StyleObject → List StyleObject
  | [] => []
  | r :: rest => processStyleObjectCalls r ++ [r] ++ processRulesCalls rest

end

mutual

/-- Structural equality of style objects. -/
def soEq : StyleObject → StyleObject → Bool
  | .mk c1 s1 rs1, .mk c2 s2 rs2 => c1 == c2 && s1 == s2 && soEqList rs1 rs2

/-- Elementwise structural equality of style object lists. -/
def soEqList : List StyleObject → List StyleObject → Bool
  | [], [] => true
  | x :: xs, y :: ys => soEq x y && soEqList xs ys
  | _, _ => false

end

instance : BEq StyleObject := ⟨soEq⟩

mutual

/-- The number of positions at which `x` occurs as a strict descendant
(a rule reachable through `cssRules`) of `s`. -/
def descCount (x : StyleObject) : StyleObject → Nat
  | .mk _ _ rules => descCountList x rules

/-- Descendant-occurrence count over a rule list. -/
def descCountList (x : StyleObject) : List StyleObject → Nat
  | [] => 0
  | r :: rest => descCount x r + (if soEq r x then 1 else 0) + descCountList x rest

end

/-! ## Auxiliary predicates and concrete scenarios -/

/-- Whether the text still contains a backslash immediately followed by
a quote (a sequence `REGEXP_ESCAPED_QUOTES` would rewrite). -/
def hasEscapedQuote : List Char → Bool
  | [] => false
  | [_] => false
  | a :: b :: rest => (a = '\\' && isQuoteChar b) || hasEscapedQuote (b :: rest)

/-- Content `content: "stylish({bad})"`: marker syntax whose argument text is
not valid JSON. -/
def badContentC2 : List Char := "stylish(\x7bbad\x7d)".toList

/-- A well-formed `data` expression. -/
def goodContentC2 : List Char := "stylish(\x7b\"data\":\x7b\"x\":\"1\"\x7d\x7d)".toList

/-- The parsed arguments of `goodContentC2`. -/
def goodValC2 : JsValue := .obj [("data", .obj [("x", .str "1")])]

/-- The host JSON decoder restricted to the two argument texts the C2
scenario exercises: `{"data":{"x":"1"}}` decodes, `{bad}` does not. -/
def decodeC2 : List Char → Option JsValue :=
  fun s => if s = "\x7b\"data\":\x7b\"x\":\"1\"\x7d\x7d".toList then some goodValC2 else none

/-- Engine for the C2 scenario: the `data` trigger registered, one
handler under it. -/
def cfgC2 : EngineCfg := ⟨fun _ => [], decodeC2, [.data], [(.data, 5)]⟩

/-- Document for the C2 scenario: the malformed provider (a `div`)
precedes the well-formed one (a `span`) in `querySelectorAll` order. -/
def docC2 : List DocNode := [.el 1 "div" badContentC2, .el 2 "span" goodContentC2]

/-- An `on` expression: `stylish({"on":{"events":["click"]}})`. -/
def onContentC3 : List Char := "stylish(\x7b\"on\":\x7b\"events\":[\"click\"]\x7d\x7d)".toList

/-- The parsed arguments of `onContentC3`. -/
def onValC3 : JsValue := .obj [("on", .obj [("events", .arr [.str "click"])])]

/-- The host JSON decoder restricted to the C3 scenario's argument
text. -/
def decodeC3 : List Char → Option JsValue :=
  fun s => if s = "\x7b\"on\":\x7b\"events\":[\"click\"]\x7d\x7d".toList then some onValC3 else none

/-- Engine for the C3 scenario: the `on` trigger registered and one
handler (reference `7`) registered under it. -/
def cfgC3 : EngineCfg := ⟨fun _ => [], decodeC3, [.on], [(.on, 7)]⟩

/-- Document for the C3 scenario: a single marker-bearing element
(node `1`) with the `on` expression as inline style content. -/
def docC3 : List DocNode := [.el 1 "div" onContentC3]

/-- The pass state after one `process()` call in the C3 scenario. -/
def passOnceC3 : St := process cfgC3 docC3

/-- The pass state after re-running `process()` over the unchanged
document. -/
def passTwiceC3 : St := processSt cfgC3 docC3 passOnceC3

/-- A one-rule stylesheet for the C9 counterexample: the top-level
style object itself carries marker content. -/
def ruleC9 : StyleObject := .mk "stylish(\x7b\"data\":\x7b\x7d\x7d)".toList "div[stylish]" []

/-- The top-level style object of the C9 counterexample. -/
def sheetC9 : StyleObject := .mk "stylish(\x7b\"data\":\x7b\x7d\x7d)".toList "style" [ruleC9]

/-! ## Helper lemmas -/

/-- Dispatch via `_processHandler` invokes, in list order, exactly the matching
registrations, each with the given nodes and payload. -/
theorem processHandler_eq_filter {α β π : Type} [DecidableEq α]
    (handlers : List (α × β)) (nodes : List Node) (payload : π) (trigger : α) :
    processHandler handlers nodes payload trigger =
      (handlers.filter (fun h => trigger = h.1)).map (fun h => (h.2, nodes, payload)) := by
  induction handlers with
  | nil => rfl
  | cons h rest ih =>
    by_cases ht : trigger = h.1
    · subst ht
      simp [processHandler, ih, List.filter_cons]
    · simp [processHandler, ht, ih, List.filter_cons]

/-- Text containing no backslash-quote pair is a fixed point of the
unescape replacement. -/
theorem unescape_eq_self_of_no_escape (cs : List Char)
    (h : hasEscapedQuote cs = false) : unescapeQuotes cs = cs := by
  induction cs using unescapeQuotes.induct with
  | case1 => rfl
  | case2 c rest hq ih =>
    simp [hasEscapedQuote, hq] at h
  | case3 c rest hq ih =>
    simp only [hasEscapedQuote, Bool.or_eq_false_iff] at h
    simp [unescapeQuotes, hq, ih h.2]
  | case4 c rest hne ih =>
    cases rest with
    | nil => simp [unescapeQuotes]
    | cons b rest2 =>
      simp only [hasEscapedQuote, Bool.or_eq_false_iff] at h
      simp [unescapeQuotes, ih h.2]

/-! ## Claims -/

/-- C6: for every handler-dispatch call with `(nodes, payload,
triggerId)`, every callback registered under that trigger identity is
invoked, in registration order, with exactly `(nodes, payload)`; a
trigger identity with no matching registrations produces zero
invocations and is not an error. -/
theorem processHandler_dispatch_spec {α β π : Type} [DecidableEq α]
    (handlers : List (α × β)) (nodes : List Node) (payload : π) (trigger : α) :
    processHandler handlers nodes payload trigger =
      (handlers.filter (fun h => trigger = h.1)).map (fun h => (h.2, nodes, payload)) ∧
    ((∀ h ∈ handlers, h.1 ≠ trigger) →
      processHandler handlers nodes payload trigger = []) := by
  refine ⟨processHandler_eq_filter handlers nodes payload trigger, fun hnone => ?_⟩
  rw [processHandler_eq_filter]
  have hfil : handlers.filter (fun h => trigger = h.1) = [] := by
    rw [List.filter_eq_nil_iff]
    intro a ha
    simpa using fun hc => (hnone a ha) hc.symm
  rw [hfil]
  rfl

/-- Closed instance of C6: a dispatch with two matching and one
unmatched registration, and a dispatch under an unused identity. -/
theorem processHandler_dispatch_spec_witness :
    processHandler [((1 : Nat), (10 : Nat)), (2, 20), (1, 30)] [5] "p" 1 =
      ([((1 : Nat), (10 : Nat)), (2, 20), (1, 30)].filter
        (fun h => 1 = h.1)).map (fun h => (h.2, [5], "p")) ∧
    processHandler [((2 : Nat), (20 : Nat))] [5] "p" 1 = [] :=
  ⟨(processHandler_dispatch_spec _ _ _ _).1,
   (processHandler_dispatch_spec [((2 : Nat), (20 : Nat))] [5] "p" 1).2 (by decide)⟩

/-- C10: `removeTrigger(t)` with `t` present removes `t` from the
trigger list and replaces the handler list with only the registrations
whose trigger identity equals the removed `t`; every handler registered
under another trigger identity is deleted. -/
theorem removeTrigger_keeps_only_removed_trigger_handlers (s : StylishState) (t : Nat)
    (h : s.triggers.contains t = true) :
    (removeTrigger s t).triggers = s.triggers.erase t ∧
    (removeTrigger s t).handlers = s.handlers.filter (fun hd => hd.1 = t) ∧
    ∀ hd ∈ s.handlers, hd.1 ≠ t → hd ∉ (removeTrigger s t).handlers := by
  have hrw : removeTrigger s t =
      { triggers := s.triggers.erase t
        handlers := s.handlers.filter (fun hd => hd.1 = t) } := by
    unfold removeTrigger
    rw [if_pos h]
  refine ⟨by rw [hrw], by rw [hrw], ?_⟩
  intro hd _ hne hcontra
  rw [hrw] at hcontra
  rw [List.mem_filter] at hcontra
  exact hne (by simpa using hcontra.2)

/-- Closed instance of C10: removing trigger `3` deletes the handler
registered under trigger `4`. -/
theorem removeTrigger_keeps_only_removed_trigger_handlers_witness :
    (removeTrigger ⟨[3], [(3, 1), (4, 2)]⟩ 3).triggers = ([3] : List Nat).erase 3 ∧
    (removeTrigger ⟨[3], [(3, 1), (4, 2)]⟩ 3).handlers =
      ([(3, 1), (4, 2)] : List (Nat × Nat)).filter (fun hd => hd.1 = 3) ∧
    ∀ hd ∈ ([(3, 1), (4, 2)] : List (Nat × Nat)), hd.1 ≠ 3 →
      hd ∉ (removeTrigger ⟨[3], [(3, 1), (4, 2)]⟩ 3).handlers :=
  removeTrigger_keeps_only_removed_trigger_handlers ⟨[3], [(3, 1), (4, 2)]⟩ 3 (by decide)

/-- C8 counterexample: the unescape step is not idempotent on its own
output.  On `\\"` (backslash, backslash, quote) the first pass yields
`\"`, which still contains a backslash-quote pair; a second pass
rewrites it to `"`. -/
theorem unescape_twice_ne_cex :
    unescapeQuotes (unescapeQuotes ['\\', '\\', '"']) ≠ unescapeQuotes ['\\', '\\', '"'] := by
  decide

/-- C8 (amended): re-running the unescape step yields the same text
whenever the produced text contains no remaining backslash-quote pair;
an output can still contain such a pair (from a doubled backslash
before a quote), and only then does a second pass rewrite further. -/
theorem unescape_idempotent_of_no_escaped_quote (cs : List Char)
    (h : hasEscapedQuote (unescapeQuotes cs) = false) :
    unescapeQuotes (unescapeQuotes cs) = unescapeQuotes cs :=
  unescape_eq_self_of_no_escape _ h

/-- Closed instance of amended C8: `\"a` unescapes to `"a`, on which
the step is idempotent. -/
theorem unescape_idempotent_of_no_escaped_quote_witness :
    unescapeQuotes (unescapeQuotes ['\\', '"', 'a']) = unescapeQuotes ['\\', '"', 'a'] :=
  unescape_idempotent_of_no_escaped_quote ['\\', '"', 'a'] (by decide)

/-- The splice-while-advancing loop removes exactly the matching
registrations whenever no two matching registrations are adjacent. -/
theorem removeHandlerList_eq_filter_of_no_adjacent {α β : Type} [DecidableEq α] [DecidableEq β]
    (t : α) (f : β) :
    ∀ hs : List (α × β),
      List.Chain' (fun a b => ¬((a.1 = t ∧ a.2 = f) ∧ (b.1 = t ∧ b.2 = f))) hs →
      removeHandlerList t f hs = hs.filter (fun x => ¬(x.1 = t ∧ x.2 = f)) := by
  intro hs
  induction hs using removeHandlerList.induct t f with
  | case1 => intro _; rfl
  | case2 h hm =>
    intro _
    have e1 : removeHandlerList t f [h] = [] := by
      simp only [removeHandlerList, if_pos hm]
    rw [e1, List.filter_cons, if_neg (by simpa using hm)]
    rfl
  | case3 h hm h2 rest2 ih =>
    intro hchain
    rw [List.chain'_cons] at hchain
    have h2no : ¬(h2.1 = t ∧ h2.2 = f) := fun hc => hchain.1 ⟨hm, hc⟩
    have e1 : removeHandlerList t f (h :: h2 :: rest2) = h2 :: removeHandlerList t f rest2 := by
      simp only [removeHandlerList, if_pos hm]
    rw [e1, ih hchain.2.tail, List.filter_cons, List.filter_cons,
        if_neg (by rw [decide_eq_true_eq]; exact not_not_intro hm),
        if_pos (by rw [decide_eq_true_eq]; exact h2no)]
  | case4 h rest hm ih =>
    intro hchain
    have e1 : removeHandlerList t f (h :: rest) = h :: removeHandlerList t f rest := by
      cases rest with
      | nil => simp only [removeHandlerList, if_neg hm]
      | cons a l => simp only [removeHandlerList, if_neg hm]
    rw [e1, ih hchain.tail, List.filter_cons,
        if_pos (by rw [decide_eq_true_eq]; exact hm)]

/-- C7 counterexample: with two adjacent matching registrations,
`removeHandler` leaves the second one in place — not all matching
registrations are removed. -/
theorem removeHandler_adjacent_duplicates_cex :
    (removeHandler ⟨[], [(1, 1), (1, 1)]⟩ 1 1).handlers = [(1, 1)] ∧
    (1, 1) ∈ (removeHandler ⟨[], [(1, 1), (1, 1)]⟩ 1 1).handlers := by
  refine ⟨?_, ?_⟩ <;> decide

/-- C7 (amended): `removeHandler(t, f)` removes the registrations
matching both the trigger and the callback by identity, and returns the
engine instance — except that each removal skips the registration
immediately following it, so all matches are removed only when no two
matching registrations are adjacent. -/
theorem removeHandler_removes_nonadjacent_matches (s : StylishState) (t f : Nat)
    (h : List.Chain' (fun a b => ¬((a.1 = t ∧ a.2 = f) ∧ (b.1 = t ∧ b.2 = f))) s.handlers) :
    (removeHandler s t f).handlers = s.handlers.filter (fun x => ¬(x.1 = t ∧ x.2 = f)) ∧
    (removeHandler s t f).triggers = s.triggers :=
  ⟨removeHandlerList_eq_filter_of_no_adjacent t f s.handlers h, rfl⟩

/-- Closed instance of amended C7: two matching registrations separated
by an unrelated one are both removed. -/
theorem removeHandler_removes_nonadjacent_matches_witness :
    (removeHandler ⟨[9], [(1, 1), (2, 2), (1, 1)]⟩ 1 1).handlers =
      ([(1, 1), (2, 2), (1, 1)] : List (Nat × Nat)).filter (fun x => ¬(x.1 = 1 ∧ x.2 = 1)) ∧
    (removeHandler ⟨[9], [(1, 1), (2, 2), (1, 1)]⟩ 1 1).triggers = [9] :=
  removeHandler_removes_nonadjacent_matches ⟨[9], [(1, 1), (2, 2), (1, 1)]⟩ 1 1
    (by simp [List.chain'_cons, List.chain'_singleton])

/-- A successful match of the expression pattern forces the content to
be longer than the marker name. -/
theorem matchExpr_some_gt (cs cap : List Char) (h : matchExpr cs = some cap) :
    ATTRIBUTE_NAME.length < cs.length := by
  have hhead : exprHead.length = 8 := rfl
  have hattr : ATTRIBUTE_NAME.length = 7 := rfl
  cases cs with
  | nil => simp [matchExpr] at h
  | cons c rest =>
    simp only [matchExpr] at h
    by_cases hq : isQuoteChar c
    · rw [if_pos hq] at h
      by_cases hp : exprHead.isPrefixOf rest
      · have hle : exprHead.length ≤ rest.length :=
          (List.isPrefixOf_iff_prefix.mp hp).length_le
        simp only [List.length_cons]
        omega
      · rw [if_neg hp] at h
        simp at h
    · rw [if_neg hq] at h
      by_cases hp : exprHead.isPrefixOf (c :: rest)
      · have hle : exprHead.length ≤ (c :: rest).length :=
          (List.isPrefixOf_iff_prefix.mp hp).length_le
        simp only [List.length_cons] at hle ⊢
        omega
      · rw [if_neg hp] at h
        simp at h

/-- C1: the Expression Extractor returns the empty string when the
content does not match the marker expression pattern (or is no longer
than the marker name), and otherwise returns the captured inner
argument text unescaped and trimmed; on an empty extraction result the
Style Provider Processor performs no trigger dispatch (it leaves the
pass state untouched). -/
theorem extractArgumentString_spec (content : List Char) :
    ((matchExpr content = none ∨ content.length ≤ ATTRIBUTE_NAME.length) →
      extractArgumentString content = []) ∧
    (∀ cap, matchExpr content = some cap →
      extractArgumentString content = trimJs (unescapeQuotes cap)) ∧
    (∀ (cfg : EngineCfg) (isRule : Bool) (sel : String) (own : Node) (st : St),
      extractArgumentString content = [] →
      processProviderSt cfg isRule sel own content st = st) := by
  refine ⟨?_, ?_, ?_⟩
  · intro h
    unfold extractArgumentString
    rcases h with h | h
    · have hniff : ¬(ATTRIBUTE_NAME.length < content.length ∧
          (matchExpr content).isSome = true) := by
        rintro ⟨-, hs⟩
        rw [h] at hs
        simp at hs
      rw [if_neg hniff]
    · have hniff : ¬(ATTRIBUTE_NAME.length < content.length ∧
          (matchExpr content).isSome = true) := by
        rintro ⟨hl, -⟩
        omega
      rw [if_neg hniff]
  · intro cap hcap
    have hlen := matchExpr_some_gt content cap hcap
    unfold extractArgumentString
    rw [if_pos ⟨hlen, by rw [hcap]; rfl⟩]
    unfold replaceExpression
    rw [hcap]
  · intro cfg isRule sel own st h
    unfold processProviderSt
    rw [h]
    simp

/-- Closed instance of C1: a non-matching content, a matching content
with whitespace and wrapper, and an inert provider. -/
theorem extractArgumentString_spec_witness :
    extractArgumentString "nope".toList = [] ∧
    extractArgumentString "stylish( \x7b\"a\":1\x7d )".toList =
      trimJs (unescapeQuotes " \x7b\"a\":1\x7d ".toList) ∧
    processProviderSt ⟨fun _ => [], fun _ => none, [], []⟩ false "div" 1 "nope".toList initSt =
      initSt :=
  ⟨(extractArgumentString_spec _).1 (Or.inl (by decide)),
   (extractArgumentString_spec _).2.1 _ (by decide),
   (extractArgumentString_spec _).2.2 _ false "div" 1 initSt (by decide)⟩

/-- Any `mode` value other than the string `"global"` resolves to
`"local"`. -/
theorem resolveMode_eq_local (m : Option JsValue) (h : m ≠ some (.str "global")) :
    resolveMode m = "local" := by
  match m with
  | none => rfl
  | some .null => rfl
  | some (.bool _) => rfl
  | some (.num _) => rfl
  | some (.arr _) => rfl
  | some (.obj _) => rfl
  | some (.str s) =>
    by_cases hloc : s = "local"
    · subst hloc; rfl
    · by_cases hglob : s = "global"
      · exact absurd (by rw [hglob]) h
      · have hc : MODES.contains s = false := by
          simp [List.contains_cons, hloc, hglob, MODES]
        simp only [resolveMode]
        rw [if_neg (ne_true_of_eq_false hc)]

/-- C4: for every `on`-trigger invocation with a non-empty node set
and a valid `events` list, one closure capturing the affected node set
is installed on every node for every event; when it later fires, the
Handler Dispatcher is invoked under the `on` trigger identity with
payload `{ event }` and with the entire original node set if `mode` is
`"global"`, or with exactly the firing node if `mode` is absent or
unrecognized (resolved to `"local"`). -/
theorem triggerOn_mode_dispatch
    (nodes : List Node) (args : JsValue) (fields : List (String × JsValue))
    (events : List JsValue) (cid : Nat) (handlers : List (BuiltinTrigger × Nat))
    (target : Node) (ev : JsValue)
    (hn : nodes ≠ [])
    (hon : propOf args "on" = some (.obj fields))
    (hev : propOf (.obj fields) "events" = some (.arr events)) :
    triggerOnInstalls nodes args cid =
      .ok (events.flatMap (fun e => nodes.map (fun n =>
        ⟨n, e, ⟨cid, resolveMode (propOf (.obj fields) "mode"), nodes⟩,
          jsTruthy (propOf (.obj fields) "capture")⟩))) ∧
    (propOf (.obj fields) "mode" = some (.str "global") →
      closureFire handlers ⟨cid, resolveMode (propOf (.obj fields) "mode"), nodes⟩ target ev =
        (processHandler handlers nodes (Payload.event target ev) BuiltinTrigger.on).map
          (fun c => Effect.handlerCall c.1 c.2.1 c.2.2)) ∧
    (propOf (.obj fields) "mode" ≠ some (.str "global") →
      closureFire handlers ⟨cid, resolveMode (propOf (.obj fields) "mode"), nodes⟩ target ev =
        (processHandler handlers [target] (Payload.event target ev) BuiltinTrigger.on).map
          (fun c => Effect.handlerCall c.1 c.2.1 c.2.2)) := by
  have hlen : 0 < nodes.length := List.length_pos.mpr hn
  refine ⟨?_, ?_, ?_⟩
  · cases args with
    | obj fs =>
      simp [triggerOnInstalls, hon, hev, typeofIsObject, hlen]
    | null => simp [propOf] at hon
    | bool b => simp [propOf] at hon
    | num n => simp [propOf] at hon
    | str s => simp [propOf] at hon
    | arr xs => simp [propOf] at hon
  · intro hg
    have hm : resolveMode (propOf (.obj fields) "mode") = "global" := by
      rw [hg]; rfl
    simp only [closureFire, hm]
    rw [if_neg (by decide)]
  · intro hg
    have hm : resolveMode (propOf (.obj fields) "mode") = "local" :=
      resolveMode_eq_local _ hg
    simp [closureFire, hm]

/-- Closed instance of C4: two affected nodes, a `click` event, no
`mode` key (resolved to `"local"`), and the effect of the installed
closure firing on node `1`. -/
theorem triggerOn_mode_dispatch_witness :
    triggerOnInstalls [1, 2] (.obj [("on", .obj [("events", .arr [.str "click"])])]) 0 =
      .ok [⟨1, .str "click",
              ⟨0, resolveMode (propOf (.obj [("events", .arr [.str "click"])]) "mode"), [1, 2]⟩,
              jsTruthy (propOf (.obj [("events", .arr [.str "click"])]) "capture")⟩,
           ⟨2, .str "click",
              ⟨0, resolveMode (propOf (.obj [("events", .arr [.str "click"])]) "mode"), [1, 2]⟩,
              jsTruthy (propOf (.obj [("events", .arr [.str "click"])]) "capture")⟩] ∧
    closureFire [(.on, 7)]
        ⟨0, resolveMode (propOf (.obj [("events", .arr [.str "click"])]) "mode"), [1, 2]⟩
        1 (.str "click") =
      [.handlerCall 7 [1] (.event 1 (.str "click"))] :=
  ⟨((triggerOn_mode_dispatch [1, 2] (.obj [("on", .obj [("events", .arr [.str "click"])])])
      [("events", .arr [.str "click"])] [.str "click"] 0 [(.on, 7)] 1 (.str "click")
      (by simp) rfl rfl).1).trans rfl,
   ((triggerOn_mode_dispatch [1, 2] (.obj [("on", .obj [("events", .arr [.str "click"])])])
      [("events", .arr [.str "click"])] [.str "click"] 0 [(.on, 7)] 1 (.str "click")
      (by simp) rfl rfl).2.2 (by simp [propOf, List.lookup])).trans rfl⟩

/-- C5: for every `data`-trigger invocation with a non-empty node set
and an object-valued `data` key, the trigger writes, for every own key
in order, the value onto every affected node's dataset and then invokes
the Handler Dispatcher once per key under the `data` trigger identity
with payload `{ data }`; it is a no-op when `data` is missing or the
node set is empty. -/
theorem triggerData_spec
    (handlers : List (BuiltinTrigger × Nat)) (nodes : List Node) (args : JsValue)
    (hnull : args ≠ .null) :
    (∀ fields, propOf args "data" = some (.obj fields) → nodes ≠ [] →
      triggerDataRun handlers nodes args =
        .ok (fields.flatMap (fun kv =>
          nodes.map (fun n => Effect.datasetWrite n kv.1 kv.2) ++
          (processHandler handlers nodes (Payload.data (.obj fields)) BuiltinTrigger.data).map
            (fun c => Effect.handlerCall c.1 c.2.1 c.2.2)))) ∧
    (propOf args "data" = none → triggerDataRun handlers nodes args = .ok []) ∧
    (nodes = [] → triggerDataRun handlers nodes args = .ok []) := by
  refine ⟨?_, ?_, ?_⟩
  · intro fields hdata hne
    have hlen : 0 < nodes.length := List.length_pos.mpr hne
    cases args with
    | obj fs =>
      simp [triggerDataRun, hdata, typeofIsObject, hlen, ownKeys]
    | null => simp [propOf] at hdata
    | bool b => simp [propOf] at hdata
    | num n => simp [propOf] at hdata
    | str s => simp [propOf] at hdata
    | arr xs => simp [propOf] at hdata
  · intro hdata
    cases args with
    | null => exact absurd rfl hnull
    | obj fs => simp [triggerDataRun, hdata, typeofIsObject]
    | bool b => simp [triggerDataRun, propOf, typeofIsObject]
    | num n => simp [triggerDataRun, propOf, typeofIsObject]
    | str s => simp [triggerDataRun, propOf, typeofIsObject]
    | arr xs => simp [triggerDataRun, hdata, typeofIsObject]
  · intro hempty
    subst hempty
    cases args with
    | null => exact absurd rfl hnull
    | obj fs => simp [triggerDataRun]
    | bool b => simp [triggerDataRun]
    | num n => simp [triggerDataRun]
    | str s => simp [triggerDataRun]
    | arr xs => simp [triggerDataRun]

/-- Closed instance of C5: one key written to both nodes followed by
one handler invocation, plus the two no-op cases. -/
theorem triggerData_spec_witness :
    triggerDataRun [(.data, 5)] [1, 2] (.obj [("data", .obj [("x", .str "1")])]) =
      .ok [.datasetWrite 1 "x" (.str "1"), .datasetWrite 2 "x" (.str "1"),
           .handlerCall 5 [1, 2] (.data (.obj [("x", .str "1")]))] ∧
    triggerDataRun [(.data, 5)] [1, 2] (.obj [("other", .num 1)]) = .ok [] ∧
    triggerDataRun [(.data, 5)] [] (.obj [("data", .obj [("x", .str "1")])]) = .ok [] :=
  ⟨((triggerData_spec [(.data, 5)] [1, 2] (.obj [("data", .obj [("x", .str "1")])])
      (by simp)).1 [("x", .str "1")] rfl (by simp)).trans rfl,
   (triggerData_spec [(.data, 5)] [1, 2] (.obj [("other", .num 1)])
      (by simp)).2.1 (by simp [propOf]),
   (triggerData_spec [(.data, 5)] [] (.obj [("data", .obj [("x", .str "1")])])
      (by simp)).2.2 rfl⟩

/-- The `==` of style objects is `soEq`. -/
theorem beq_eq_soEq (a b : StyleObject) : (a == b) = soEq a b := rfl

mutual

/-- Occurrences of `x` in a walk's hand-off sequence are exactly its
occurrences as a strict descendant. -/
theorem count_processStyleObjectCalls (x s : StyleObject) :
    (processStyleObjectCalls s).count x = descCount x s := by
  match s with
  | .mk c sel rules =>
    simp only [processStyleObjectCalls, descCount]
    exact count_processRulesCalls x rules

/-- List version of `count_processStyleObjectCalls`. -/
theorem count_processRulesCalls (x : StyleObject) (rules : List StyleObject) :
    (processRulesCalls rules).count x = descCountList x rules := by
  match rules with
  | [] => rfl
  | r :: rest =>
    simp only [processRulesCalls, descCountList, List.count_append, List.count_cons,
      List.count_nil, beq_eq_soEq]
    rw [count_processStyleObjectCalls x r, count_processRulesCalls x rest]
    omega

end

mutual

/-- Everything a walk hands off is strictly smaller than the walk's
argument. -/
theorem sizeOf_lt_of_mem_processStyleObjectCalls (y s : StyleObject)
    (h : y ∈ processStyleObjectCalls s) : sizeOf y < sizeOf s := by
  match s with
  | .mk c sel rules =>
    have hlt := sizeOf_lt_of_mem_processRulesCalls y rules h
    have : sizeOf (StyleObject.mk c sel rules) = 1 + sizeOf c + sizeOf sel + sizeOf rules := by
      simp
    omega

/-- List version of `sizeOf_lt_of_mem_processStyleObjectCalls`. -/
theorem sizeOf_lt_of_mem_processRulesCalls (y : StyleObject) (rules : List StyleObject)
    (h : y ∈ processRulesCalls rules) : sizeOf y < sizeOf rules := by
  match rules with
  | [] => simp [processRulesCalls] at h
  | r :: rest =>
    simp only [processRulesCalls, List.mem_append, List.mem_singleton] at h
    have hsz : sizeOf (r :: rest) = 1 + sizeOf r + sizeOf rest := by simp
    rcases h with (h | h) | h
    · have := sizeOf_lt_of_mem_processStyleObjectCalls y r h
      omega
    · subst h
      omega
    · have := sizeOf_lt_of_mem_processRulesCalls y rest h
      omega

end

/-- C9 counterexample: the walker never hands the top-level style
object itself to the Style Provider Processor, even when it carries
marker content — only its descendant rule is handed off. -/
theorem walker_skips_top_level_cex :
    processStyleObjectCalls sheetC9 = [ruleC9] ∧
    sheetC9 ∉ processStyleObjectCalls sheetC9 := by
  refine ⟨rfl, fun h => ?_⟩
  have h2 : sheetC9 = ruleC9 := List.mem_singleton.mp h
  have h3 : sheetC9.cssRules = ruleC9.cssRules := by rw [h2]
  simp [sheetC9, ruleC9, StyleObject.cssRules] at h3

/-- C9 (amended): during one walk every nested descendant rule is
handed to the Style Provider Processor exactly once per occurrence as
a descendant, but the top-level stylesheet/rule the walk starts at is
never handed off itself. -/
theorem walker_hands_descendants_exactly_once (s x : StyleObject) :
    (processStyleObjectCalls s).count x = descCount x s ∧
    s ∉ processStyleObjectCalls s :=
  ⟨count_processStyleObjectCalls x s,
   fun h => absurd (sizeOf_lt_of_mem_processStyleObjectCalls s s h) (lt_irrefl _)⟩

/-- Closed instance of amended C9. -/
theorem walker_hands_descendants_exactly_once_witness :
    (processStyleObjectCalls sheetC9).count ruleC9 = descCount ruleC9 sheetC9 ∧
    sheetC9 ∉ processStyleObjectCalls sheetC9 :=
  walker_hands_descendants_exactly_once sheetC9 ruleC9

/-- A provider step on an already-thrown pass state is a no-op. -/
theorem processProviderSt_of_error (cfg : EngineCfg) (isRule : Bool) (sel : String)
    (own : Node) (content : List Char) (st : St) (h : st.error.isSome = true) :
    processProviderSt cfg isRule sel own content st = st := by
  unfold processProviderSt
  rw [if_pos h]

mutual

/-- A walk over an already-thrown pass state is a no-op. -/
theorem processStyleObjectSt_of_error (cfg : EngineCfg) (so : StyleObject) (st : St)
    (h : st.error.isSome = true) : processStyleObjectSt cfg so st = st := by
  match so with
  | .mk c sel rules =>
    simp only [processStyleObjectSt]
    exact processRulesSt_of_error cfg rules st h

/-- List version of `processStyleObjectSt_of_error`. -/
theorem processRulesSt_of_error (cfg : EngineCfg) (rules : List StyleObject) (st : St)
    (h : st.error.isSome = true) : processRulesSt cfg rules st = st := by
  match rules with
  | [] => rfl
  | r :: rest =>
    simp only [processRulesSt]
    rw [processStyleObjectSt_of_error cfg r st h,
        processProviderSt_of_error cfg true r.selectorText 0 r.content st h,
        processRulesSt_of_error cfg rest st h]

end

/-- A document-node step on an already-thrown pass state is a no-op. -/
theorem processNodeSt_of_error (cfg : EngineCfg) (d : DocNode) (st : St)
    (h : st.error.isSome = true) : processNodeSt cfg d st = st := by
  match d with
  | .styleEl sheet => exact processStyleObjectSt_of_error cfg sheet st h
  | .el id ln content => exact processProviderSt_of_error cfg false ln id content st h

/-- Once a pass state has thrown, the rest of the pass is a no-op. -/
theorem processSt_of_error (cfg : EngineCfg) (doc : List DocNode) (st : St)
    (h : st.error.isSome = true) : processSt cfg doc st = st := by
  induction doc with
  | nil => rfl
  | cons d doc ih =>
    show processSt cfg doc (processNodeSt cfg d st) = st
    rw [processNodeSt_of_error cfg d st h]
    exact ih

/-- C2 counterexample: with the malformed provider first in document
order, `process()` throws and the well-formed provider is never
processed — the pass produces no trigger dispatch at all. -/
theorem process_malformed_aborts_pass_cex :
    (process cfgC2 docC2).log = [] ∧ (process cfgC2 docC2).error = some ⟨"div"⟩ :=
  ⟨rfl, rfl⟩

/-- C2 (amended): a MalformedExpression failure is recovered at no
granularity: the throw aborts the remainder of the `process()` pass, so
every provider before the offending one is processed and no provider
after it is; a well-formed provider is still processed only when it
precedes the malformed one in the pass order. -/
theorem process_malformed_aborts_rest
    (cfg : EngineCfg) (pre post : List DocNode) (id : Node) (ln : String)
    (bad : List Char)
    (hok : (processSt cfg pre initSt).error = none)
    (hlen : extractArgumentString bad ≠ [])
    (hbad : cfg.decode (extractArgumentString bad) = none) :
    process cfg (pre ++ .el id ln bad :: post) =
      { processSt cfg pre initSt with error := some ⟨ln⟩ } := by
  unfold process processSt
  rw [List.foldl_append]
  show processSt cfg (DocNode.el id ln bad :: post)
        (processSt cfg pre initSt) = _
  have hstep : processNodeSt cfg (.el id ln bad) (processSt cfg pre initSt) =
      { processSt cfg pre initSt with error := some ⟨ln⟩ } := by
    show processProviderSt cfg false ln id bad (processSt cfg pre initSt) = _
    unfold processProviderSt
    rw [hok]
    simp only [Option.isSome_none, Bool.false_eq_true, if_false]
    rw [if_pos (List.length_pos.mpr hlen), hbad]
  show processSt cfg post (processNodeSt cfg (.el id ln bad) (processSt cfg pre initSt)) = _
  rw [hstep]
  exact processSt_of_error cfg post _ rfl

/-- Closed instance of amended C2: the provider before the malformed
one is processed, the one after it is not. -/
theorem process_malformed_aborts_rest_witness :
    process cfgC2 ([.el 2 "span" goodContentC2] ++ .el 1 "div" badContentC2 ::
        [.el 3 "p" goodContentC2]) =
      { processSt cfgC2 [.el 2 "span" goodContentC2] initSt with error := some ⟨"div"⟩ } :=
  process_malformed_aborts_rest cfgC2 [.el 2 "span" goodContentC2] [.el 3 "p" goodContentC2]
    1 "div" badContentC2 rfl (by decide) rfl

/-- C3: re-running `process()` over the unchanged document installs a
second, distinct listener closure on the same node and event (the
canonical `triggerOn` removes nothing), so a single subsequent click
invokes the handler registered under the `on` trigger twice instead of
at most once. -/
theorem process_twice_click_fires_handler_twice :
    passTwiceC3.error = none ∧
    passOnceC3.listeners.length = 1 ∧
    passTwiceC3.listeners.length = 2 ∧
    fireEvent cfgC3.handlers passOnceC3.listeners 1 (.str "click") =
      [.handlerCall 7 [1] (.event 1 (.str "click"))] ∧
    fireEvent cfgC3.handlers passTwiceC3.listeners 1 (.str "click") =
      [.handlerCall 7 [1] (.event 1 (.str "click")),
       .handlerCall 7 [1] (.event 1 (.str "click"))] :=
  ⟨rfl, rfl, rfl, rfl, rfl⟩

end Stylish
